import Mathlib

/-!
Verification development for the neverball-checker repository.

The JavaScript sources are shallowly embedded:
JS `Set<string>` values become insertion-ordered duplicate-free
`List String` values built with `setAdd`; JS `Map<string, v>` values become
insertion-ordered association lists built with `mapSet` (a `set` on an
existing key replaces the value in place, keeping the original position);
the injected I/O callbacks (`fs.existsSync`, `readAsset`, the binary SOL
decoder) become explicit function parameters; the unbounded JS recursion in
`getAssetsRecursively` is given a fuel parameter bounding the depth of
nested calls, with `none` meaning the computation exceeds every finite
call depth.
-/

set_option autoImplicit false

/-- Model of adding an element to a JS `Set<string>`: inserted at the end
when absent, no effect when already present. -/
def setAdd (l : List String) (x : String) : List String :=
  if x ∈ l then l else l ++ [x]

/-- Model of `new Set([...a, ...b])`: every element of `a` then `b` is
inserted in order into a fresh set. -/
def setUnion (a b : List String) : List String :=
  (a ++ b).foldl setAdd []

/-- Model of JS `Map.prototype.set` on an association list: replace the
value at an existing key in place, otherwise append the new entry. -/
def mapSet {α : Type} : List (String × α) → String → α → List (String × α)
  | [], k, v => [(k, v)]
  | (k0, v0) :: rest, k, v =>
    if k0 = k then (k0, v) :: rest else (k0, v0) :: mapSet rest k v

/-- Model of `content.split(/\r?\n/)` on the character list of the text:
a separator is either the two-character sequence CR LF or a lone LF; a CR
not followed by LF stays inside the line. The first argument accumulates
the current line in reverse. -/
def splitLinesAux : List Char → List Char → List (List Char)
  | [], acc => [acc.reverse]
  | '\r' :: '\n' :: rest, acc => acc.reverse :: splitLinesAux rest []
  | '\n' :: rest, acc => acc.reverse :: splitLinesAux rest []
  | c :: rest, acc => splitLinesAux rest (c :: acc)

/-- Model of `content.split(/\r?\n/)` on strings. -/
def splitLines (content : String) : List String :=
  (splitLinesAux content.data []).map String.mk

/-- Output of the external binary SOL decoder (`neverball-solid`), as used
by the checker: the four dictionary string fields (an absent or empty field
is the empty string, both being falsy in JS) and the list of material
names (field `f` of each `mtrl` record). -/
structure SolFile where
  shot : String
  song : String
  grad : String
  back : String
  mtrls : List String
deriving DecidableEq

/-- The `AssetBundle` record of `src/index.js`: four JS `Set<string>`
collections. -/
structure AssetBundle where
  imageAssets : List String
  audioAssets : List String
  solAssets : List String
  materialAssets : List String
deriving DecidableEq

/-- The all-empty asset bundle. -/
def emptyBundle : AssetBundle :=
  { imageAssets := [], audioAssets := [], solAssets := [], materialAssets := [] }

/-- Model of `new Set([...a, ...b])` applied field-wise, as done in the
loop body of `getAssetsRecursively` in `src/index.js`. -/
def unionBundles (a b : AssetBundle) : AssetBundle :=
  { imageAssets := setUnion a.imageAssets b.imageAssets
    audioAssets := setUnion a.audioAssets b.audioAssets
    solAssets := setUnion a.solAssets b.solAssets
    materialAssets := setUnion a.materialAssets b.materialAssets }

/-- `getAssetsFromSetFile` from `src/index.js`, applied to the decoded text
of the set file (the `readAsset` + `toString` step is the injected
reader): line index 3 is the screenshot (empty or missing means none), and
every non-empty line from index 5 on is a level file path. -/
def getAssetsFromSetFile (content : String) : AssetBundle :=
  let lines := splitLines content
  let shot := lines.getD 3 ""
  let sols := lines.drop 5
  { imageAssets := if shot ≠ "" then setAdd [] shot else []
    audioAssets := []
    solAssets := sols.foldl (fun acc sol => if sol ≠ "" then setAdd acc sol else acc) []
    materialAssets := [] }

/-- `getAssetsFromSolFile` from `src/index.js`. `readAsset` is the injected
reader returning raw bytes of type `β` (or `none` for a missing file, which
the JS code turns into a thrown error), `decodeSol` is the external
`Solid` decoder (`none` models a thrown decode error). Either failure is
caught by the surrounding `try`/`catch` and yields the sets built so far,
which are all empty. -/
def getAssetsFromSolFile {β : Type} (readAsset : String → Option β)
    (decodeSol : β → Option SolFile) (path : String) : AssetBundle :=
  match readAsset path with
  | none => emptyBundle
  | some content =>
    match decodeSol content with
    | none => emptyBundle
    | some sol =>
      let imageAssets := if sol.shot ≠ "" then setAdd [] sol.shot else []
      let audioAssets := if sol.song ≠ "" then setAdd [] sol.song else []
      let imageAssets := if sol.grad ≠ "" then setAdd imageAssets sol.grad else imageAssets
      let solAssets := if sol.back ≠ "" then setAdd [] sol.back else []
      let materialAssets := sol.mtrls.foldl
        (fun acc f => if f = "NULL" ∨ f = "default" then acc else setAdd acc f) []
      { imageAssets := imageAssets, audioAssets := audioAssets
        solAssets := solAssets, materialAssets := materialAssets }

/-- The `for (const sol of mainAssets.solAssets)` loop body of
`getAssetsRecursively` in `src/index.js`: each level path is expanded by
`getAssetsFromSolFile`, recursively closed by `child` (the recursive call
at one smaller depth bound), and unioned into the accumulator. -/
def getAssetsRecursivelyLoop {β : Type} (readAsset : String → Option β)
    (decodeSol : β → Option SolFile) (child : AssetBundle → Option AssetBundle) :
    List String → AssetBundle → Option AssetBundle
  | [], acc => some acc
  | sol :: rest, acc =>
    match child (getAssetsFromSolFile readAsset decodeSol sol) with
    | none => none
    | some childAssets =>
      getAssetsRecursivelyLoop readAsset decodeSol child rest (unionBundles acc childAssets)

/-- `getAssetsRecursively` from `src/index.js`, with an added fuel
parameter bounding the depth of nested recursive calls. The JS original has
no such bound and no visited set; a result of `none` at every fuel value
means the JS computation never returns. -/
def getAssetsRecursively {β : Type} (readAsset : String → Option β)
    (decodeSol : β → Option SolFile) : Nat → AssetBundle → Option AssetBundle
  | 0, _ => none
  | n + 1, mainAssets =>
    getAssetsRecursivelyLoop readAsset decodeSol
      (getAssetsRecursively readAsset decodeSol n) mainAssets.solAssets mainAssets

/-- `findMaterialPath` from `src/index.js`: first existing candidate among
`textures/<name>` then `<name>`. -/
def findMaterialPath (assetExists : String → Bool) (mtrl : String) : Option String :=
  ["textures/" ++ mtrl, mtrl].find? (fun mtrlPath => assetExists mtrlPath)

/-- `findMaterialImagePath` from `src/index.js`: first existing candidate
among the four image-file variants, tried in this order. -/
def findMaterialImagePath (assetExists : String → Bool) (mtrl : String) : Option String :=
  ["textures/" ++ mtrl ++ ".png", "textures/" ++ mtrl ++ ".jpg",
   mtrl ++ ".png", mtrl ++ ".jpg"].find? (fun materialImage => assetExists materialImage)

/-- Character-list core of the end-anchored regex replacement that turns a
trailing `.sol` into `.map`, operating on
the REVERSED character list: when the reversed list starts with the
reversal of ".sol" those four characters are replaced by the reversal of
".map", otherwise the list is unchanged (the regex matches only at the end
of the string). -/
def replaceSolSuffix (l : List Char) : List Char :=
  if l.take 4 = ['l', 'o', 's', '.'] then 'p' :: 'a' :: 'm' :: '.' :: l.drop 4 else l

/-- Model of the `path.replace` call deriving the companion geometry path
from `src/index.js`
(`checkAssets`, companion geometry derivation). -/
def solToMap (p : String) : String :=
  String.mk (replaceSolSuffix p.data.reverse).reverse

/-- The `for (const path of assets.materialAssets)` loop of `checkAssets`
in `src/index.js`: each material gets an independent backing-file check and
backing-image check, each adding one tagged entry to the found or missing
set. The accumulator is the pair (foundAssets, missingAssets). -/
def checkMaterialsLoop (assetExists : String → Bool) :
    List String → List String × List String → List String × List String
  | [], acc => acc
  | path :: rest, (foundAssets, missingAssets) =>
    let acc1 :=
      match findMaterialPath assetExists path with
      | none => (foundAssets, setAdd missingAssets ("material:" ++ path))
      | some _ => (setAdd foundAssets ("material:" ++ path), missingAssets)
    let acc2 :=
      match findMaterialImagePath assetExists path with
      | none => (acc1.1, setAdd acc1.2 ("material-image:" ++ path))
      | some mtrlImagePath => (setAdd acc1.1 ("material-image:" ++ mtrlImagePath), acc1.2)
    checkMaterialsLoop assetExists rest acc2

/-- The `for (const path of assets.solAssets)` loop of `checkAssets` in
`src/index.js`. `readAsset` and `decodeSol` are as in
`getAssetsFromSolFile`; `extractModels` models the
`matchAll(/"model" +"([^"]+)"/g)` scan over the companion file text. The
accumulator is (foundAssets, missingAssets, objAssets). -/
def checkSolLoop {β : Type} (readAsset : String → Option β)
    (decodeSol : β → Option SolFile) (extractModels : β → List String) :
    List String → List String × List String × List String →
    List String × List String × List String
  | [], acc => acc
  | path :: rest, (foundAssets, missingAssets, objAssets) =>
    let acc1 :=
      match readAsset path with
      | none => (foundAssets, setAdd missingAssets ("sol:" ++ path), objAssets)
      | some content =>
        match decodeSol content with
        | none => (foundAssets, setAdd missingAssets ("sol:" ++ path), objAssets)
        | some _ => (setAdd foundAssets ("sol:" ++ path), missingAssets, objAssets)
    let mapPath := solToMap path
    let acc2 :=
      match readAsset mapPath with
      | none => (acc1.1, setAdd acc1.2.1 ("map:" ++ path), acc1.2.2)
      | some mapData =>
        (setAdd acc1.1 ("map:" ++ mapPath), acc1.2.1, setUnion acc1.2.2 (extractModels mapData))
    checkSolLoop readAsset decodeSol extractModels rest acc2

/-- The filesystem environment of `src/cli.js`: the two data roots and the
injected `fs.existsSync`. -/
structure FsEnv where
  addonDir : String
  baseDir : String
  existsSync : String → Bool

/-- The module-level bookkeeping state of `src/cli.js`:
`foundAddonFilenames`, `foundBaseFilenames` (JS Maps from logical path to
physical path) and `foundBaseOverrides` (JS Set of addon physical paths). -/
structure CliState where
  foundAddonFilenames : List (String × String)
  foundBaseFilenames : List (String × String)
  foundBaseOverrides : List String
deriving DecidableEq

/-- `getSystemFile` from `src/cli.js`: resolve a logical path against the
addon directory first, recording the resolution and, when the base copy
also exists, recording the addon physical path as a base override; fall
back to the base directory; return `none` when neither copy exists. The
pair is (returned system path, updated bookkeeping state). -/
def getSystemFile (env : FsEnv) (st : CliState) (path : String) : Option String × CliState :=
  let addonPath := env.addonDir ++ "/" ++ path
  let basePath := env.baseDir ++ "/" ++ path
  if env.existsSync addonPath then
    let st1 := { st with foundAddonFilenames := mapSet st.foundAddonFilenames path addonPath }
    let st2 :=
      if env.existsSync basePath then
        { st1 with foundBaseOverrides := setAdd st1.foundBaseOverrides addonPath }
      else st1
    (some addonPath, st2)
  else if env.existsSync basePath then
    (some basePath, { st with foundBaseFilenames := mapSet st.foundBaseFilenames path basePath })
  else
    (none, st)

/-- `assetExists` from `src/cli.js`: a thin wrapper over `getSystemFile`
with the identical bookkeeping side effect. -/
def assetExists (env : FsEnv) (st : CliState) (path : String) : Bool × CliState :=
  let r := getSystemFile env st path
  (r.1 ≠ none, r.2)

/-- The initial bookkeeping state of `src/cli.js`: the set file itself is
seeded into `foundAddonFilenames`, the other collections start empty. -/
def cliInit (env : FsEnv) (setFile : String) : CliState :=
  { foundAddonFilenames := [(setFile, env.addonDir ++ "/" ++ setFile)]
    foundBaseFilenames := []
    foundBaseOverrides := [] }

/-- A run of the audit as seen by the resolver: the sequence of logical
paths passed to `getSystemFile`, folded over the bookkeeping state. -/
def runResolver (env : FsEnv) (st : CliState) : List String → CliState
  | [] => st
  | p :: rest => runResolver env (getSystemFile env st p).2 rest

/-- The archive selection loop at the end of `src/cli.js`: every value of
`foundAddonFilenames` that is not in `foundBaseOverrides`. -/
def selection (st : CliState) : List String :=
  (st.foundAddonFilenames.map Prod.snd).filter
    (fun filename => !(decide (filename ∈ st.foundBaseOverrides)))

/-- The `Asset` record of `src/unnamed/part_000`: a logical path, an
optional parent asset and an optional type tag. -/
inductive Asset where
  | mk (path : String) (parent : Option Asset) (type : Option String)

/-- An `AssetList` of `src/unnamed/part_000`: a JS `Map<string, Asset>`
keyed by logical path. -/
abbrev AssetList : Type := List (String × Asset)

/-- `addAssetToList` from `src/unnamed/part_000`:
`list.set(path, { path, parent, type })`. -/
def addAssetToList (list : AssetList) (path : String)
    (parent : Option Asset) (type : Option String) : AssetList :=
  mapSet list path (Asset.mk path parent type)

/-- Concrete existence oracle for the claim C6 witness: only the backing
file `textures/brick` exists. -/
def mtrlExistsW : String → Bool := fun s => s == "textures/brick"

/-- Concrete filesystem for the claim C3 witness: the logical path `p`
exists in both the addon and the base store. -/
def fsBothW : FsEnv :=
  { addonDir := "ad", baseDir := "bd"
    existsSync := fun s => s == "ad/p" || s == "bd/p" }

/-- First parent asset used in the claim C4 counterexample. -/
def parentA1 : Asset := Asset.mk "levels/one.sol" none none

/-- Second parent asset used in the claim C4 counterexample. -/
def parentA2 : Asset := Asset.mk "levels/two.sol" none none

/-- A decoded level file whose only dictionary entry is the given `back`
reference. -/
def solBackOnly (b : String) : SolFile :=
  { shot := "", song := "", grad := "", back := b, mtrls := [] }

/-- Concrete two-level store with mutually referencing `back` fields:
`a.sol` points back to `b.sol` and `b.sol` points back to `a.sol`. The
reader returns already-decoded level files, so the decoder is `some`. -/
def cyclicEnv : String → Option SolFile := fun p =>
  if p = "a.sol" then some (solBackOnly "b.sol")
  else if p = "b.sol" then some (solBackOnly "a.sol")
  else none

/-- Concrete two-level store for the claim C2 witness: `a.sol` has `back`
pointing at `b.sol` and `b.sol` has an empty `back`. -/
def chainEnv : String → Option SolFile := fun p =>
  if p = "a.sol" then some (solBackOnly "b.sol")
  else if p = "b.sol" then some (solBackOnly "") else none

/-- Concrete filesystem for the claim C8 witness: logical path `x` exists
only in the addon store, logical path `y` exists in both stores. -/
def fsPackW : FsEnv :=
  { addonDir := "ad", baseDir := "bd"
    existsSync := fun s => s == "ad/x" || s == "ad/y" || s == "bd/y" }

/-- Invariant of the override bookkeeping: every recorded override is the
addon physical path of some logical path whose base copy exists. -/
def OverridesInv (env : FsEnv) (st : CliState) : Prop :=
  ∀ x ∈ st.foundBaseOverrides, ∃ q, x = env.addonDir ++ "/" ++ q
    ∧ env.existsSync (env.baseDir ++ "/" ++ q) = true


/-! Helper lemmas about the JS `Set` and `Map` models. -/

theorem mem_setAdd_self (l : List String) (x : String) : x ∈ setAdd l x := by
  unfold setAdd
  split
  · assumption
  · simp

theorem mem_setAdd_of_mem {l : List String} {x : String} (y : String) (h : x ∈ l) :
    x ∈ setAdd l y := by
  unfold setAdd
  split
  · exact h
  · exact List.mem_append_left _ h

theorem eq_or_mem_of_mem_setAdd {l : List String} {x y : String} (h : x ∈ setAdd l y) :
    x ∈ l ∨ x = y := by
  unfold setAdd at h
  split at h
  · exact Or.inl h
  · rcases List.mem_append.mp h with h1 | h2
    · exact Or.inl h1
    · simp at h2
      exact Or.inr h2

theorem setAdd_idem (l : List String) (x : String) : setAdd (setAdd l x) x = setAdd l x := by
  unfold setAdd
  by_cases h : x ∈ l
  · simp [h]
  · simp [h]

theorem mapSet_idem {α : Type} (m : List (String × α)) (k : String) (v : α) :
    mapSet (mapSet m k v) k v = mapSet m k v := by
  induction m with
  | nil => simp [mapSet]
  | cons kv rest ih =>
    obtain ⟨k0, v0⟩ := kv
    by_cases h : k0 = k
    · simp [mapSet, h]
    · simp [mapSet, h, ih]

theorem mapSet_self_mem {α : Type} (m : List (String × α)) (k : String) (v : α) :
    (k, v) ∈ mapSet m k v := by
  induction m with
  | nil => simp [mapSet]
  | cons kv rest ih =>
    obtain ⟨k0, v0⟩ := kv
    by_cases h : k0 = k
    · subst h
      simp [mapSet]
    · simp only [mapSet, if_neg h]
      exact List.mem_cons_of_mem _ ih

theorem mapSet_keep {α : Type} (fv : String → α) {m : List (String × α)} (q : String)
    {p : String} (h : (p, fv p) ∈ m) : (p, fv p) ∈ mapSet m q (fv q) := by
  induction m with
  | nil => cases h
  | cons kv rest ih =>
    obtain ⟨k0, v0⟩ := kv
    by_cases hk : k0 = q
    · subst hk
      rcases List.mem_cons.mp h with h1 | h2
      · obtain ⟨hp, hv⟩ := Prod.mk.injEq .. ▸ h1
        simp only [mapSet, if_pos rfl]
        rw [← hp]
        exact List.mem_cons_self _ _
      · simp only [mapSet, if_pos rfl]
        exact List.mem_cons_of_mem _ h2
    · simp only [mapSet, if_neg hk]
      rcases List.mem_cons.mp h with h1 | h2
      · rw [h1]
        exact List.mem_cons_self _ _
      · exact List.mem_cons_of_mem _ (ih h2)

/-- Claim C5: for every level-file path whose read or decode fails (the
injected reader returns absent, or the binary decoder raises), the
Level-File Asset Extractor `getAssetsFromSolFile` returns a bundle whose
image, audio, level and material collections are all empty, and does not
propagate any error to its caller. -/
theorem getAssetsFromSolFile_failure_empty {β : Type} (readAsset : String → Option β)
    (decodeSol : β → Option SolFile) (path : String) :
    (readAsset path = none → getAssetsFromSolFile readAsset decodeSol path = emptyBundle)
    ∧ (∀ content, readAsset path = some content → decodeSol content = none →
        getAssetsFromSolFile readAsset decodeSol path = emptyBundle) := by
  constructor
  · intro h
    simp [getAssetsFromSolFile, h]
  · intro content h1 h2
    simp [getAssetsFromSolFile, h1, h2]

/-- Witness for claim C5 at a concrete reader and decoder: both failure
modes yield the empty bundle. -/
theorem getAssetsFromSolFile_failure_empty_witness :
    getAssetsFromSolFile (fun _ => (none : Option Nat)) (fun _ => none) "levels/x.sol"
      = emptyBundle
    ∧ getAssetsFromSolFile (fun _ => (some 0 : Option Nat)) (fun _ => none) "levels/x.sol"
      = emptyBundle :=
  ⟨(getAssetsFromSolFile_failure_empty (fun _ => (none : Option Nat)) (fun _ => none)
      "levels/x.sol").1 rfl,
   (getAssetsFromSolFile_failure_empty (fun _ => (some 0 : Option Nat)) (fun _ => none)
      "levels/x.sol").2 0 rfl rfl⟩

/-- Claim C10: for every manifest whose text splits into at most 5 lines
the Set-File Asset Extractor returns a bundle with an empty level
collection, and when the text has at most 3 lines, or line index 3 is
empty, the image collection is empty as well; short manifests behave
exactly like manifests with empty lines and raise no error. -/
theorem getAssetsFromSetFile_short_manifest (content : String)
    (h5 : (splitLines content).length ≤ 5) :
    (getAssetsFromSetFile content).solAssets = []
    ∧ ((splitLines content).getD 3 "" = "" → (getAssetsFromSetFile content).imageAssets = [])
    ∧ ((splitLines content).length ≤ 3 → (getAssetsFromSetFile content).imageAssets = []) := by
  refine ⟨?_, ?_, ?_⟩
  · simp [getAssetsFromSetFile, List.drop_eq_nil_of_le h5]
  · intro h
    simp only [List.getD, List.get?_eq_getElem?] at h
    simp [getAssetsFromSetFile, List.getD, h]
  · intro h3
    have h : (splitLines content).getD 3 "" = "" := by
      rw [List.getD_eq_default]
      exact h3
    simp only [List.getD, List.get?_eq_getElem?] at h
    simp [getAssetsFromSetFile, List.getD, h]

/-- Witness for claim C10 on a concrete three-line manifest. -/
theorem getAssetsFromSetFile_short_manifest_witness :
    (getAssetsFromSetFile "a\nb\nc").solAssets = []
    ∧ (getAssetsFromSetFile "a\nb\nc").imageAssets = [] :=
  ⟨(getAssetsFromSetFile_short_manifest "a\nb\nc" (by decide)).1,
   (getAssetsFromSetFile_short_manifest "a\nb\nc" (by decide)).2.2 (by decide)⟩

/-- Claim C6: the audit runs two independent checks per material: the
backing-file search tries `textures/<m>` then `<m>` in order and the image
search tries the four image candidates in order, each returning the first
existing candidate; a material whose backing file exists but whose image
candidates all fail yields exactly one found entry of kind material and
exactly one missing entry of kind material-image, the latter reported under
the material name itself. -/
theorem material_dual_classification (assetExistsF : String → Bool) (mtrl : String)
    (hfile : (findMaterialPath assetExistsF mtrl).isSome = true)
    (himg : findMaterialImagePath assetExistsF mtrl = none) :
    checkMaterialsLoop assetExistsF [mtrl] ([], [])
      = (["material:" ++ mtrl], ["material-image:" ++ mtrl])
    ∧ (assetExistsF ("textures/" ++ mtrl) = true →
        findMaterialPath assetExistsF mtrl = some ("textures/" ++ mtrl))
    ∧ (assetExistsF ("textures/" ++ mtrl) = false →
        findMaterialPath assetExistsF mtrl = some mtrl)
    ∧ (assetExistsF ("textures/" ++ mtrl ++ ".png") = false
        ∧ assetExistsF ("textures/" ++ mtrl ++ ".jpg") = false
        ∧ assetExistsF (mtrl ++ ".png") = false
        ∧ assetExistsF (mtrl ++ ".jpg") = false)
    ∧ (∀ ex : String → Bool, ∀ name : String,
        ex ("textures/" ++ name ++ ".png") = true →
        findMaterialImagePath ex name = some ("textures/" ++ name ++ ".png"))
    ∧ (∀ ex : String → Bool, ∀ name : String,
        ex ("textures/" ++ name ++ ".png") = false →
        ex ("textures/" ++ name ++ ".jpg") = true →
        findMaterialImagePath ex name = some ("textures/" ++ name ++ ".jpg")) := by
  have hcand := List.find?_eq_none.mp himg
  refine ⟨?_, ?_, ?_, ?_, ?_, ?_⟩
  · obtain ⟨v, hv⟩ := Option.isSome_iff_exists.mp hfile
    simp only [checkMaterialsLoop, hv, himg]
    simp [setAdd]
  · intro h
    simp [findMaterialPath, List.find?, h]
  · intro h
    rcases h2 : assetExistsF mtrl with _ | _
    · exfalso
      rw [findMaterialPath] at hfile
      simp [List.find?, h, h2] at hfile
    · simp [findMaterialPath, List.find?, h, h2]
  · refine ⟨?_, ?_, ?_, ?_⟩ <;>
      simp only [Bool.eq_false_iff, ne_eq] <;> intro hx <;>
      [exact hcand _ (by simp) hx; exact hcand _ (by simp) hx;
       exact hcand _ (by simp) hx; exact hcand _ (by simp) hx]
  · intro ex name h
    simp [findMaterialImagePath, List.find?, h]
  · intro ex name h1 h2
    simp [findMaterialImagePath, List.find?, h1, h2]

/-- Witness for claim C6: material `brick`, backing file present, no image
candidate present. -/
theorem material_dual_classification_witness :
    checkMaterialsLoop mtrlExistsW ["brick"] ([], [])
      = (["material:" ++ "brick"], ["material-image:" ++ "brick"]) :=
  (material_dual_classification mtrlExistsW "brick" (by decide) (by decide)).1

theorem take_four_cons (c1 c2 c3 c4 : Char) (rest : List Char) :
    (c1 :: c2 :: c3 :: c4 :: rest).take 4 = [c1, c2, c3, c4] := rfl

theorem drop_four_cons (c1 c2 c3 c4 : Char) (rest : List Char) :
    (c1 :: c2 :: c3 :: c4 :: rest).drop 4 = rest := rfl

theorem solToMap_sol_suffix (s : String) : solToMap (s ++ ".sol") = s ++ ".map" := by
  have hrev : (s ++ ".sol").data.reverse = 'l' :: 'o' :: 's' :: '.' :: s.data.reverse := by
    show (s.data ++ ['.', 's', 'o', 'l']).reverse = _
    simp
  have hrep : replaceSolSuffix ((s ++ ".sol").data.reverse)
      = 'p' :: 'a' :: 'm' :: '.' :: s.data.reverse := by
    rw [hrev]
    unfold replaceSolSuffix
    rw [take_four_cons, drop_four_cons, if_pos rfl]
  unfold solToMap
  rw [hrep]
  have hlist : ('p' :: 'a' :: 'm' :: '.' :: s.data.reverse).reverse
      = s.data ++ ['.', 'm', 'a', 'p'] := by
    simp
  rw [hlist]
  rfl

theorem solToMap_no_suffix (q : String) (hq : ∀ s : String, q ≠ s ++ ".sol") :
    solToMap q = q := by
  obtain ⟨qd⟩ := q
  by_cases hc : ((String.mk qd).data.reverse).take 4 = ['l', 'o', 's', '.']
  · exfalso
    have hsplit : qd.reverse = ['l', 'o', 's', '.'] ++ qd.reverse.drop 4 := by
      conv_lhs => rw [← List.take_append_drop 4 qd.reverse]
      rw [show (String.mk qd).data.reverse = qd.reverse from rfl] at hc
      rw [hc]
    have hdata : qd = (qd.reverse.drop 4).reverse ++ ['.', 's', 'o', 'l'] := by
      conv_lhs => rw [← List.reverse_reverse qd, hsplit]
      simp
    exact hq (String.mk (qd.reverse.drop 4).reverse) (congrArg String.mk hdata)
  · unfold solToMap replaceSolSuffix
    rw [if_neg hc]
    show String.mk qd.reverse.reverse = String.mk qd
    rw [List.reverse_reverse]

/-- Claim C7: the companion geometry path is derived by pure suffix
substitution — `levels/foo.sol` derives `levels/foo.map` and a path not
ending in `.sol` derives unchanged — and when the derived companion file is
absent the audit records the missing entry under the companion kind tagged
with the level path itself, and skips model extraction for that level. -/
theorem companion_derivation_tagging {β : Type} (readAsset : String → Option β)
    (decodeSol : β → Option SolFile) (extractModels : β → List String)
    (p : String) (foundAssets missingAssets objAssets : List String)
    (hmap : readAsset (solToMap p) = none) :
    (∀ s : String, solToMap (s ++ ".sol") = s ++ ".map")
    ∧ (∀ q : String, (∀ s : String, q ≠ s ++ ".sol") → solToMap q = q)
    ∧ solToMap "levels/foo.sol" = "levels/foo.map"
    ∧ ("map:" ++ p) ∈ (checkSolLoop readAsset decodeSol extractModels [p]
        (foundAssets, missingAssets, objAssets)).2.1
    ∧ (checkSolLoop readAsset decodeSol extractModels [p]
        (foundAssets, missingAssets, objAssets)).2.2 = objAssets := by
  refine ⟨solToMap_sol_suffix, solToMap_no_suffix, by decide, ?_, ?_⟩
  · rcases hra : readAsset p with _ | content
    · simp only [checkSolLoop, hra, hmap]
      exact mem_setAdd_self _ _
    · rcases hdec : decodeSol content with _ | sol
      · simp only [checkSolLoop, hra, hdec, hmap]
        exact mem_setAdd_self _ _
      · simp only [checkSolLoop, hra, hdec, hmap]
        exact mem_setAdd_self _ _
  · rcases hra : readAsset p with _ | content
    · simp [checkSolLoop, hra, hmap]
    · rcases hdec : decodeSol content with _ | sol <;> simp [checkSolLoop, hra, hdec, hmap]

/-- Witness for claim C7 at a concrete reader where every read fails. -/
theorem companion_derivation_tagging_witness :
    ("map:" ++ "levels/foo.sol") ∈ (checkSolLoop (fun _ => (none : Option Nat))
        (fun _ => none) (fun _ => []) ["levels/foo.sol"] ([], [], [])).2.1
    ∧ (checkSolLoop (fun _ => (none : Option Nat)) (fun _ => none) (fun _ => [])
        ["levels/foo.sol"] ([], [], [])).2.2 = ([] : List String) :=
  ⟨(companion_derivation_tagging (fun _ => (none : Option Nat)) (fun _ => none) (fun _ => [])
      "levels/foo.sol" [] [] [] rfl).2.2.2.1,
   (companion_derivation_tagging (fun _ => (none : Option Nat)) (fun _ => none) (fun _ => [])
      "levels/foo.sol" [] [] [] rfl).2.2.2.2⟩

/-- Claim C3: resolution precedence of `getSystemFile` — when the logical
path exists in the addon store it resolves to the addon physical path and,
when the base copy also exists, the addon physical path is recorded in the
base-override set; when only the base copy exists it resolves to the base
physical path and the override set is unchanged; when neither exists it
returns absent and the whole bookkeeping state is unchanged. -/
theorem getSystemFile_overridePrecedence (env : FsEnv) (st : CliState) (p : String) :
    (env.existsSync (env.addonDir ++ "/" ++ p) = true →
      (getSystemFile env st p).1 = some (env.addonDir ++ "/" ++ p)
      ∧ (env.existsSync (env.baseDir ++ "/" ++ p) = true →
          (env.addonDir ++ "/" ++ p) ∈ (getSystemFile env st p).2.foundBaseOverrides))
    ∧ (env.existsSync (env.addonDir ++ "/" ++ p) = false →
        env.existsSync (env.baseDir ++ "/" ++ p) = true →
      (getSystemFile env st p).1 = some (env.baseDir ++ "/" ++ p)
      ∧ (getSystemFile env st p).2.foundBaseOverrides = st.foundBaseOverrides)
    ∧ (env.existsSync (env.addonDir ++ "/" ++ p) = false →
        env.existsSync (env.baseDir ++ "/" ++ p) = false →
      (getSystemFile env st p).1 = none ∧ (getSystemFile env st p).2 = st) := by
  refine ⟨fun ha => ⟨?_, fun hb => ?_⟩, fun ha hb => ⟨?_, ?_⟩, fun ha hb => ⟨?_, ?_⟩⟩
  · simp [getSystemFile, ha]
  · have h1 : (getSystemFile env st p).2.foundBaseOverrides
        = setAdd st.foundBaseOverrides (env.addonDir ++ "/" ++ p) := by
      simp [getSystemFile, ha, hb]
    rw [h1]
    exact mem_setAdd_self _ _
  · simp [getSystemFile, ha, hb]
  · simp [getSystemFile, ha, hb]
  · simp [getSystemFile, ha, hb]
  · simp [getSystemFile, ha, hb]

/-- Witness for claim C3 at the concrete two-store filesystem `fsBothW`. -/
theorem getSystemFile_overridePrecedence_witness :
    (getSystemFile fsBothW (cliInit fsBothW "s.txt") "p").1 = some ("ad" ++ "/" ++ "p")
    ∧ ("ad" ++ "/" ++ "p")
        ∈ (getSystemFile fsBothW (cliInit fsBothW "s.txt") "p").2.foundBaseOverrides :=
  ⟨((getSystemFile_overridePrecedence fsBothW (cliInit fsBothW "s.txt") "p").1 (by decide)).1,
   ((getSystemFile_overridePrecedence fsBothW (cliInit fsBothW "s.txt") "p").1 (by decide)).2
     (by decide)⟩

/-- Claim C9: resolution is idempotent — calling `getSystemFile` again on
the state produced by a first call, with the same logical path and the same
store contents, returns the same physical path and leaves every piece of
bookkeeping (addon map, base map, override set) exactly as the first call
left it. -/
theorem getSystemFile_idempotent (env : FsEnv) (st : CliState) (p : String) :
    getSystemFile env (getSystemFile env st p).2 p = getSystemFile env st p := by
  by_cases ha : env.existsSync (env.addonDir ++ "/" ++ p) = true
  · by_cases hb : env.existsSync (env.baseDir ++ "/" ++ p) = true
    · simp [getSystemFile, ha, hb, mapSet_idem, setAdd_idem]
    · simp [getSystemFile, ha, hb, mapSet_idem]
  · by_cases hb : env.existsSync (env.baseDir ++ "/" ++ p) = true
    · simp [getSystemFile, ha, hb, mapSet_idem]
    · simp [getSystemFile, ha, hb]

/-- Counterexample to claim C4 as stated: re-adding the pair
(kind image, path shot.png) with a different parent does change the
collection, and the recorded parent is the one supplied at the second
insertion, not the first. -/
theorem addAssetToList_first_parent_counterexample :
    (addAssetToList (addAssetToList [] "shot.png" (some parentA1) (some "image"))
        "shot.png" (some parentA2) (some "image")).lookup "shot.png"
      = some (Asset.mk "shot.png" (some parentA2) (some "image"))
    ∧ Asset.mk "shot.png" (some parentA2) (some "image")
        ≠ Asset.mk "shot.png" (some parentA1) (some "image")
    ∧ addAssetToList (addAssetToList [] "shot.png" (some parentA1) (some "image"))
        "shot.png" (some parentA2) (some "image")
      ≠ addAssetToList [] "shot.png" (some parentA1) (some "image") := by
  refine ⟨rfl, ?_, ?_⟩
  · intro h
    simp [parentA1, parentA2] at h
  · intro h
    simp [addAssetToList, mapSet, parentA1, parentA2] at h

/-- Claim C4 (amended): re-adding an already-present (kind, path) pair
keeps the key list (and hence the deduplication and insertion order) of the
collection unchanged, and leaves the collection entirely unchanged when the
supplied parent and type equal the stored ones, but the stored metadata is
overwritten: the parent recorded for the pair is the one supplied at the
most recent insertion. -/
theorem addAssetToList_last_insertion (l : AssetList) (p : String)
    (parent2 : Option Asset) (type2 : Option String) (a0 : Asset)
    (h : l.lookup p = some a0) :
    ((addAssetToList l p parent2 type2).map Prod.fst = l.map Prod.fst)
    ∧ ((addAssetToList l p parent2 type2).lookup p = some (Asset.mk p parent2 type2))
    ∧ (a0 = Asset.mk p parent2 type2 → addAssetToList l p parent2 type2 = l) := by
  induction l with
  | nil => cases h
  | cons kv rest ih =>
    obtain ⟨k0, v0⟩ := kv
    by_cases hk : k0 = p
    · subst hk
      have hv : v0 = a0 := by
        simpa [List.lookup] using h
      refine ⟨?_, ?_, ?_⟩
      · simp [addAssetToList, mapSet]
      · simp [addAssetToList, mapSet, List.lookup]
      · intro heq
        simp [addAssetToList, mapSet, hv, heq]
    · have hpk : (p == k0) = false := beq_eq_false_iff_ne.mpr (fun hpk => hk hpk.symm)
      have hrest : rest.lookup p = some a0 := by
        simpa [List.lookup, hpk] using h
      have ih2 := ih hrest
      refine ⟨?_, ?_, ?_⟩
      · simp only [addAssetToList, mapSet, if_neg hk, List.map_cons]
        rw [show mapSet rest p (Asset.mk p parent2 type2)
              = addAssetToList rest p parent2 type2 from rfl, ih2.1]
      · simp only [addAssetToList, mapSet, if_neg hk, List.lookup, hpk]
        exact ih2.2.1
      · intro heq
        simp only [addAssetToList, mapSet, if_neg hk]
        rw [show mapSet rest p (Asset.mk p parent2 type2)
              = addAssetToList rest p parent2 type2 from rfl, ih2.2.2 heq]

/-- Witness for the amended claim C4 at a concrete one-entry collection. -/
theorem addAssetToList_last_insertion_witness :
    ((addAssetToList [("shot.png", Asset.mk "shot.png" none none)]
        "shot.png" none (some "image")).map Prod.fst
      = [("shot.png", Asset.mk "shot.png" none none)].map Prod.fst)
    ∧ (addAssetToList [("shot.png", Asset.mk "shot.png" none none)]
        "shot.png" none (some "image")).lookup "shot.png"
      = some (Asset.mk "shot.png" none (some "image")) :=
  ⟨(addAssetToList_last_insertion [("shot.png", Asset.mk "shot.png" none none)]
      "shot.png" none (some "image") (Asset.mk "shot.png" none none) rfl).1,
   (addAssetToList_last_insertion [("shot.png", Asset.mk "shot.png" none none)]
      "shot.png" none (some "image") (Asset.mk "shot.png" none none) rfl).2.1⟩

theorem cyclicEnv_extract_a :
    getAssetsFromSolFile cyclicEnv some "a.sol"
      = { imageAssets := [], audioAssets := [], solAssets := ["b.sol"], materialAssets := [] } := by
  decide

theorem cyclicEnv_extract_b :
    getAssetsFromSolFile cyclicEnv some "b.sol"
      = { imageAssets := [], audioAssets := [], solAssets := ["a.sol"], materialAssets := [] } := by
  decide

theorem cyclic_aux (n : Nat) :
    getAssetsRecursively cyclicEnv some n
      { imageAssets := [], audioAssets := [], solAssets := ["a.sol"], materialAssets := [] } = none
    ∧ getAssetsRecursively cyclicEnv some n
      { imageAssets := [], audioAssets := [], solAssets := ["b.sol"], materialAssets := [] }
      = none := by
  induction n with
  | zero => exact ⟨rfl, rfl⟩
  | succ k ih =>
    constructor
    · show getAssetsRecursivelyLoop cyclicEnv some (getAssetsRecursively cyclicEnv some k)
        ["a.sol"] _ = none
      show (match getAssetsRecursively cyclicEnv some k
          (getAssetsFromSolFile cyclicEnv some "a.sol") with
        | none => none
        | some childAssets => getAssetsRecursivelyLoop cyclicEnv some
            (getAssetsRecursively cyclicEnv some k) [] (unionBundles _ childAssets)) = none
      rw [cyclicEnv_extract_a, ih.2]
    · show getAssetsRecursivelyLoop cyclicEnv some (getAssetsRecursively cyclicEnv some k)
        ["b.sol"] _ = none
      show (match getAssetsRecursively cyclicEnv some k
          (getAssetsFromSolFile cyclicEnv some "b.sol") with
        | none => none
        | some childAssets => getAssetsRecursivelyLoop cyclicEnv some
            (getAssetsRecursively cyclicEnv some k) [] (unionBundles _ childAssets)) = none
      rw [cyclicEnv_extract_b, ih.1]

/-- Claim C1 fails on the code: `getAssetsRecursively` has no visited set,
so on two level files whose `back` fields reference each other the closure
computation never terminates. With fuel bounding the depth of nested
recursive calls, the run starting from a bundle containing `a.sol` exhausts
every finite fuel value, which is the divergence of the unbounded JS
recursion. -/
theorem getAssetsRecursively_cyclic_diverges (n : Nat) :
    getAssetsRecursively cyclicEnv some n
      { imageAssets := [], audioAssets := [], solAssets := ["a.sol"], materialAssets := [] }
      = none :=
  (cyclic_aux n).1

/-- Claim C2: for every manifest whose parsed level references are exactly
the level A, where the store decodes A with `back` pointing at B and
decodes B with an empty `back`, the closure of the manifest bundle
terminates (at every sufficient nesting depth) and its level collection is
exactly the list [A, B], each path occurring once. -/
theorem closure_chain (env : String → Option SolFile) (content A B : String)
    (solA solB : SolFile)
    (hA : env A = some solA) (hAback : solA.back = B)
    (hB : env B = some solB) (hBback : solB.back = "") (hBne : B ≠ "")
    (hman : (getAssetsFromSetFile content).solAssets = [A]) (n : Nat) :
    ∃ r, getAssetsRecursively env some (n + 3) (getAssetsFromSetFile content) = some r
      ∧ r.solAssets = [A, B] ∧ A ≠ B ∧ r.solAssets.Nodup := by
  have hABne : A ≠ B := by
    intro h
    rw [h, hB] at hA
    have hs : solB = solA := Option.some.inj hA
    rw [← hs, hBback] at hAback
    exact hBne hAback.symm
  have hbAsol : (getAssetsFromSolFile env some A).solAssets = [B] := by
    simp [getAssetsFromSolFile, hA, hAback, hBne, setAdd]
  have hbBsol : (getAssetsFromSolFile env some B).solAssets = [] := by
    simp [getAssetsFromSolFile, hB, hBback, setAdd]
  have e1 : getAssetsRecursively env some (n + 1) (getAssetsFromSolFile env some B)
      = some (getAssetsFromSolFile env some B) := by
    show getAssetsRecursivelyLoop env some (getAssetsRecursively env some n)
        (getAssetsFromSolFile env some B).solAssets (getAssetsFromSolFile env some B) = _
    rw [hbBsol]
    rfl
  have e2 : getAssetsRecursively env some (n + 2) (getAssetsFromSolFile env some A)
      = some (unionBundles (getAssetsFromSolFile env some A)
          (getAssetsFromSolFile env some B)) := by
    show getAssetsRecursivelyLoop env some (getAssetsRecursively env some (n + 1))
        (getAssetsFromSolFile env some A).solAssets (getAssetsFromSolFile env some A) = _
    rw [hbAsol]
    show (match getAssetsRecursively env some (n + 1) (getAssetsFromSolFile env some B) with
      | none => none
      | some childAssets => getAssetsRecursivelyLoop env some
          (getAssetsRecursively env some (n + 1)) []
          (unionBundles (getAssetsFromSolFile env some A) childAssets)) = _
    rw [e1]
    rfl
  have e3 : getAssetsRecursively env some (n + 3) (getAssetsFromSetFile content)
      = some (unionBundles (getAssetsFromSetFile content)
          (unionBundles (getAssetsFromSolFile env some A)
            (getAssetsFromSolFile env some B))) := by
    show getAssetsRecursivelyLoop env some (getAssetsRecursively env some (n + 2))
        (getAssetsFromSetFile content).solAssets (getAssetsFromSetFile content) = _
    rw [hman]
    show (match getAssetsRecursively env some (n + 2) (getAssetsFromSolFile env some A) with
      | none => none
      | some childAssets => getAssetsRecursivelyLoop env some
          (getAssetsRecursively env some (n + 2)) []
          (unionBundles (getAssetsFromSetFile content) childAssets)) = _
    rw [e2]
    rfl
  have hsol : (unionBundles (getAssetsFromSetFile content)
      (unionBundles (getAssetsFromSolFile env some A)
        (getAssetsFromSolFile env some B))).solAssets = [A, B] := by
    show setUnion (getAssetsFromSetFile content).solAssets
        (setUnion (getAssetsFromSolFile env some A).solAssets
          (getAssetsFromSolFile env some B).solAssets) = [A, B]
    rw [hman, hbAsol, hbBsol]
    have h1 : setUnion [B] [] = [B] := by simp [setUnion, setAdd]
    rw [h1]
    show setAdd (setAdd [] A) B = [A, B]
    have h2 : setAdd [] A = [A] := by simp [setAdd]
    rw [h2]
    unfold setAdd
    rw [if_neg]
    · rfl
    · simp only [List.mem_singleton]
      exact fun hBA => hABne hBA.symm
  refine ⟨_, e3, hsol, hABne, ?_⟩
  rw [hsol]
  simp [hABne]

/-- Witness for claim C2 at a concrete manifest and two-level store. -/
theorem closure_chain_witness :
    ∃ r, getAssetsRecursively chainEnv some 3
        (getAssetsFromSetFile "t\nu\nv\nshot.png\nx\na.sol") = some r
      ∧ r.solAssets = ["a.sol", "b.sol"] ∧ "a.sol" ≠ "b.sol" ∧ r.solAssets.Nodup :=
  closure_chain chainEnv "t\nu\nv\nshot.png\nx\na.sol" "a.sol" "b.sol"
    (solBackOnly "b.sol") (solBackOnly "") rfl rfl rfl rfl (by decide) (by decide) 0

theorem string_append_left_cancel {d p q : String} (h : d ++ p = d ++ q) : p = q := by
  have hdp : (d ++ p).data = d.data ++ p.data := rfl
  have hdq : (d ++ q).data = d.data ++ q.data := rfl
  have hdd := congrArg String.data h
  rw [hdp, hdq] at hdd
  have h2 : p.data = q.data := List.append_cancel_left hdd
  exact congrArg String.mk h2

theorem overrides_mono_step (env : FsEnv) (st : CliState) (q : String) {x : String}
    (h : x ∈ st.foundBaseOverrides) :
    x ∈ (getSystemFile env st q).2.foundBaseOverrides := by
  by_cases ha : env.existsSync (env.addonDir ++ "/" ++ q) = true
  · by_cases hb : env.existsSync (env.baseDir ++ "/" ++ q) = true
    · have he : (getSystemFile env st q).2.foundBaseOverrides
          = setAdd st.foundBaseOverrides (env.addonDir ++ "/" ++ q) := by
        simp [getSystemFile, ha, hb]
      rw [he]
      exact mem_setAdd_of_mem _ h
    · have he : (getSystemFile env st q).2.foundBaseOverrides = st.foundBaseOverrides := by
        simp [getSystemFile, ha, hb]
      rw [he]
      exact h
  · by_cases hb : env.existsSync (env.baseDir ++ "/" ++ q) = true
    · have he : (getSystemFile env st q).2.foundBaseOverrides = st.foundBaseOverrides := by
        simp [getSystemFile, ha, hb]
      rw [he]
      exact h
    · have he : (getSystemFile env st q).2.foundBaseOverrides = st.foundBaseOverrides := by
        simp [getSystemFile, ha, hb]
      rw [he]
      exact h

theorem addon_entry_step (env : FsEnv) (st : CliState) (q : String) {p : String}
    (h : (p, env.addonDir ++ "/" ++ p) ∈ st.foundAddonFilenames) :
    (p, env.addonDir ++ "/" ++ p) ∈ (getSystemFile env st q).2.foundAddonFilenames := by
  by_cases ha : env.existsSync (env.addonDir ++ "/" ++ q) = true
  · by_cases hb : env.existsSync (env.baseDir ++ "/" ++ q) = true
    · have he : (getSystemFile env st q).2.foundAddonFilenames
          = mapSet st.foundAddonFilenames q (env.addonDir ++ "/" ++ q) := by
        simp [getSystemFile, ha, hb]
      rw [he]
      exact mapSet_keep (fun x => env.addonDir ++ "/" ++ x) q h
    · have he : (getSystemFile env st q).2.foundAddonFilenames
          = mapSet st.foundAddonFilenames q (env.addonDir ++ "/" ++ q) := by
        simp [getSystemFile, ha, hb]
      rw [he]
      exact mapSet_keep (fun x => env.addonDir ++ "/" ++ x) q h
  · by_cases hb : env.existsSync (env.baseDir ++ "/" ++ q) = true
    · have he : (getSystemFile env st q).2.foundAddonFilenames = st.foundAddonFilenames := by
        simp [getSystemFile, ha, hb]
      rw [he]
      exact h
    · have he : (getSystemFile env st q).2.foundAddonFilenames = st.foundAddonFilenames := by
        simp [getSystemFile, ha, hb]
      rw [he]
      exact h

theorem overridesInv_step (env : FsEnv) (st : CliState) (q : String)
    (h : OverridesInv env st) : OverridesInv env (getSystemFile env st q).2 := by
  by_cases ha : env.existsSync (env.addonDir ++ "/" ++ q) = true
  · by_cases hb : env.existsSync (env.baseDir ++ "/" ++ q) = true
    · have he : (getSystemFile env st q).2.foundBaseOverrides
          = setAdd st.foundBaseOverrides (env.addonDir ++ "/" ++ q) := by
        simp [getSystemFile, ha, hb]
      intro x hx
      rw [he] at hx
      rcases eq_or_mem_of_mem_setAdd hx with h1 | h2
      · exact h x h1
      · exact ⟨q, h2, hb⟩
    · have he : (getSystemFile env st q).2.foundBaseOverrides = st.foundBaseOverrides := by
        simp [getSystemFile, ha, hb]
      intro x hx
      rw [he] at hx
      exact h x hx
  · by_cases hb : env.existsSync (env.baseDir ++ "/" ++ q) = true
    · have he : (getSystemFile env st q).2.foundBaseOverrides = st.foundBaseOverrides := by
        simp [getSystemFile, ha, hb]
      intro x hx
      rw [he] at hx
      exact h x hx
    · have he : (getSystemFile env st q).2.foundBaseOverrides = st.foundBaseOverrides := by
        simp [getSystemFile, ha, hb]
      intro x hx
      rw [he] at hx
      exact h x hx

theorem addon_entry_processed (env : FsEnv) (st : CliState) (p : String)
    (ha : env.existsSync (env.addonDir ++ "/" ++ p) = true) :
    (p, env.addonDir ++ "/" ++ p) ∈ (getSystemFile env st p).2.foundAddonFilenames := by
  by_cases hb : env.existsSync (env.baseDir ++ "/" ++ p) = true
  · have he : (getSystemFile env st p).2.foundAddonFilenames
        = mapSet st.foundAddonFilenames p (env.addonDir ++ "/" ++ p) := by
      simp [getSystemFile, ha, hb]
    rw [he]
    exact mapSet_self_mem _ _ _
  · have he : (getSystemFile env st p).2.foundAddonFilenames
        = mapSet st.foundAddonFilenames p (env.addonDir ++ "/" ++ p) := by
      simp [getSystemFile, ha, hb]
    rw [he]
    exact mapSet_self_mem _ _ _

theorem override_processed (env : FsEnv) (st : CliState) (p : String)
    (ha : env.existsSync (env.addonDir ++ "/" ++ p) = true)
    (hb : env.existsSync (env.baseDir ++ "/" ++ p) = true) :
    (env.addonDir ++ "/" ++ p) ∈ (getSystemFile env st p).2.foundBaseOverrides := by
  have he : (getSystemFile env st p).2.foundBaseOverrides
      = setAdd st.foundBaseOverrides (env.addonDir ++ "/" ++ p) := by
    simp [getSystemFile, ha, hb]
  rw [he]
  exact mem_setAdd_self _ _

theorem runResolver_overrides_mono (env : FsEnv) (qs : List String) :
    ∀ st : CliState, ∀ {x : String}, x ∈ st.foundBaseOverrides →
    x ∈ (runResolver env st qs).foundBaseOverrides := by
  induction qs with
  | nil => intro st x h; exact h
  | cons q rest ih =>
    intro st x h
    exact ih _ (overrides_mono_step env st q h)

theorem runResolver_addon_keep (env : FsEnv) (qs : List String) :
    ∀ st : CliState, ∀ {p : String},
    (p, env.addonDir ++ "/" ++ p) ∈ st.foundAddonFilenames →
    (p, env.addonDir ++ "/" ++ p) ∈ (runResolver env st qs).foundAddonFilenames := by
  induction qs with
  | nil => intro st p h; exact h
  | cons q rest ih =>
    intro st p h
    exact ih _ (addon_entry_step env st q h)

theorem runResolver_inv (env : FsEnv) (qs : List String) :
    ∀ st : CliState, OverridesInv env st → OverridesInv env (runResolver env st qs) := by
  induction qs with
  | nil => intro st h; exact h
  | cons q rest ih =>
    intro st h
    exact ih _ (overridesInv_step env st q h)

theorem runResolver_mem_addon (env : FsEnv) (qs : List String) :
    ∀ st : CliState, ∀ {p : String}, p ∈ qs →
    env.existsSync (env.addonDir ++ "/" ++ p) = true →
    (p, env.addonDir ++ "/" ++ p) ∈ (runResolver env st qs).foundAddonFilenames := by
  induction qs with
  | nil => intro st p h; cases h
  | cons q rest ih =>
    intro st p hq ha
    rcases List.mem_cons.mp hq with h1 | h2
    · subst h1
      exact runResolver_addon_keep env rest _ (addon_entry_processed env st p ha)
    · exact ih _ h2 ha

theorem runResolver_mem_overrides (env : FsEnv) (qs : List String) :
    ∀ st : CliState, ∀ {p : String}, p ∈ qs →
    env.existsSync (env.addonDir ++ "/" ++ p) = true →
    env.existsSync (env.baseDir ++ "/" ++ p) = true →
    (env.addonDir ++ "/" ++ p) ∈ (runResolver env st qs).foundBaseOverrides := by
  induction qs with
  | nil => intro st p h; cases h
  | cons q rest ih =>
    intro st p hq ha hb
    rcases List.mem_cons.mp hq with h1 | h2
    · subst h1
      exact runResolver_overrides_mono env rest _ (override_processed env st p ha hb)
    · exact ih _ h2 ha hb

/-- Claim C8: the packaging selection is minimal with respect to the base
store — over any audit run (any sequence of logical paths resolved through
`getSystemFile` from the seeded initial state), a resolved logical path
present in both the addon and base stores has its addon physical path
excluded from the archive selection, and a resolved logical path present
only in the addon store has its addon physical path included. -/
theorem packaging_minimality (env : FsEnv) (setFile : String) (queries : List String)
    (p : String) (hq : p ∈ queries)
    (ha : env.existsSync (env.addonDir ++ "/" ++ p) = true) :
    (env.existsSync (env.baseDir ++ "/" ++ p) = true →
      (env.addonDir ++ "/" ++ p) ∉ selection (runResolver env (cliInit env setFile) queries))
    ∧ (env.existsSync (env.baseDir ++ "/" ++ p) = false →
      (env.addonDir ++ "/" ++ p) ∈ selection (runResolver env (cliInit env setFile) queries)) := by
  constructor
  · intro hb hmem
    have hov := runResolver_mem_overrides env queries (cliInit env setFile) hq ha hb
    have hflt := (List.mem_filter.mp hmem).2
    simp only [Bool.not_eq_true', decide_eq_false_iff_not] at hflt
    exact hflt hov
  · intro hb
    have hmem := runResolver_mem_addon env queries (cliInit env setFile) hq ha
    have hinv : OverridesInv env (runResolver env (cliInit env setFile) queries) := by
      apply runResolver_inv
      intro x hx
      simp [cliInit] at hx
    have hnov : (env.addonDir ++ "/" ++ p)
        ∉ (runResolver env (cliInit env setFile) queries).foundBaseOverrides := by
      intro hx
      obtain ⟨q, hxe, hbq⟩ := hinv _ hx
      have hpq : p = q := string_append_left_cancel hxe
      rw [← hpq] at hbq
      rw [hbq] at hb
      cases hb
    apply List.mem_filter.mpr
    constructor
    · exact List.mem_map.mpr ⟨(p, env.addonDir ++ "/" ++ p), hmem, rfl⟩
    · simp [hnov]

/-- Witness for claim C8: with store `fsPackW` and the audit resolving `x`
then `y`, the addon-only file is selected and the shadowed file is not. -/
theorem packaging_minimality_witness :
    ("ad" ++ "/" ++ "x") ∈ selection (runResolver fsPackW (cliInit fsPackW "s.txt") ["x", "y"])
    ∧ ("ad" ++ "/" ++ "y")
        ∉ selection (runResolver fsPackW (cliInit fsPackW "s.txt") ["x", "y"]) :=
  ⟨(packaging_minimality fsPackW "s.txt" ["x", "y"] "x" (by decide) (by decide)).2 (by decide),
   (packaging_minimality fsPackW "s.txt" ["x", "y"] "y" (by decide) (by decide)).1 (by decide)⟩
